import Mathlib

/-!
Verification development for the Silence-Suzuka playback orchestrator
(`src/silence-suzuka.py`).  Each Python function relevant to the checked
properties is embedded as an executable Lean definition; machine floats are
modelled as rationals, Python dicts as association lists (insertion order),
and `random.shuffle` as an arbitrary function assumed to permute its input
where a property needs that fact.
-/

set_option maxRecDepth 4000

namespace SilenceSuzuka

/-! ### URL canonicalisation: `_clean_url` (lines 3509-3516)

`_clean_url` tests `'bilibili.com' in url` / `'youtube.com' in url`
(substring containment) and, on the matching branch, runs `re.search` with
the pattern `https?://(?:www\.)?bilibili\.com/video/BV[a-zA-Z0-9]+`
(resp. `https?://(?:www\.)?youtube\.com/watch\?v=[a-zA-Z0-9_-]+`),
returning the matched substring when the search succeeds and the unchanged
url otherwise.  The two concrete patterns are deterministic: each
alternative (`https?`, optional `www.`) is decided by the next literal
character, so the backtracking regex engine is faithfully modelled by the
first-fit matcher below, and `re.search` by trying the matcher at each
successive start position. -/

/-- Python character class `[a-zA-Z0-9]` (ASCII). -/
def isAlnumChar (c : Char) : Bool := c.isAlpha || c.isDigit

/-- Python character class `[a-zA-Z0-9_-]` (ASCII). -/
def ytIdChar (c : Char) : Bool := c.isAlpha || c.isDigit || c == '_' || c == '-'

/-- Strip a literal prefix, returning the remainder when it is present. -/
def stripPre (lit s : List Char) : Option (List Char) :=
  if lit.isPrefixOf s then some (s.drop lit.length) else none

/-- Python substring containment `sub in s`. -/
def containsSub (sub : List Char) : List Char → Bool
  | [] => sub.isEmpty
  | s@(_ :: t) => sub.isPrefixOf s || containsSub sub t

/-- Match `(?:www\.)?<host><cls>+` at the start of `s`; returns the matched
part and the rest.  (If `www.` is present but `host` does not follow, the
regex engine would retry without consuming `www.`, which also fails because
both hosts start with a letter other than `w`.) -/
def matchTail (host : List Char) (cls : Char → Bool) (s : List Char) :
    Option (List Char × List Char) :=
  let ws : List Char × List Char :=
    match stripPre "www.".toList s with
    | some r => ("www.".toList, r)
    | none => ([], s)
  match stripPre host ws.2 with
  | none => none
  | some s2 =>
    let run := s2.takeWhile cls
    if run.isEmpty then none
    else some (ws.1 ++ host ++ run, s2.dropWhile cls)

/-- Match `https?://(?:www\.)?<host><cls>+` at the start of `s`. -/
def matchAt (host : List Char) (cls : Char → Bool) (s : List Char) :
    Option (List Char × List Char) :=
  match stripPre "https://".toList s with
  | some r => (matchTail host cls r).map (fun p => ("https://".toList ++ p.1, p.2))
  | none =>
    match stripPre "http://".toList s with
    | some r => (matchTail host cls r).map (fun p => ("http://".toList ++ p.1, p.2))
    | none => none

/-- `re.search`: try the anchored matcher at each start position, leftmost
match wins; the whole pattern is group 1, so the matched substring is
returned. -/
def research (host : List Char) (cls : Char → Bool) : List Char → Option (List Char)
  | [] => none
  | c :: cs =>
    match matchAt host cls (c :: cs) with
    | some p => some p.1
    | none => research host cls cs

def biliHost : List Char := "bilibili.com/video/BV".toList

def ytHost : List Char := "youtube.com/watch?v=".toList

def biliNeedle : List Char := "bilibili.com".toList

def ytNeedle : List Char := "youtube.com".toList

/-- Embedding of `_clean_url` (lines 3509-3516). -/
def clean_url (url : String) : String :=
  if containsSub biliNeedle url.toList then
    match research biliHost isAlnumChar url.toList with
    | some m => ⟨m⟩
    | none => url
  else if containsSub ytNeedle url.toList then
    match research ytHost ytIdChar url.toList with
    | some m => ⟨m⟩
    | none => url
  else url

/-! #### Support lemmas for the matcher -/

theorem stripPre_eq_some {lit s r : List Char} :
    stripPre lit s = some r ↔ s = lit ++ r := by
  constructor
  · intro h
    unfold stripPre at h
    split at h
    · rename_i hp
      rw [List.isPrefixOf_iff_prefix] at hp
      obtain ⟨t, rfl⟩ := hp
      rw [List.drop_left] at h
      cases h
      rfl
    · cases h
  · rintro rfl
    unfold stripPre
    rw [if_pos, List.drop_left]
    rw [List.isPrefixOf_iff_prefix]
    exact List.prefix_append _ _

theorem stripPre_eq_none {lit s : List Char} :
    stripPre lit s = none ↔ ¬ lit <+: s := by
  rw [← List.isPrefixOf_iff_prefix]
  unfold stripPre
  split <;> rename_i hp <;> simp [hp]

theorem not_prefix_append_of_take {l₁ l₂ : List Char} (t : List Char) (k : Nat)
    (hk : k ≤ l₂.length) (hne : (l₁.take k).isPrefixOf l₂ = false) :
    ¬ l₁ <+: (l₂ ++ t) := by
  intro h
  have htk : l₁.take k <+: l₂ ++ t := (List.take_prefix k l₁).trans h
  have hlen : (l₁.take k).length ≤ l₂.length := by
    rw [List.length_take]
    exact Nat.le_trans (Nat.min_le_left _ _) hk
  have : l₁.take k <+: l₂ :=
    List.prefix_of_prefix_length_le htk (List.prefix_append l₂ t) hlen
  rw [← List.isPrefixOf_iff_prefix] at this
  rw [this] at hne
  cases hne

theorem containsSub_iff {sub s : List Char} : containsSub sub s = true ↔ sub <:+: s := by
  induction s with
  | nil => simp [containsSub, List.isEmpty_iff, List.infix_nil]
  | cons a t ih =>
    simp [containsSub, List.isPrefixOf_iff_prefix, ih, List.infix_cons_iff]

theorem dropWhile_takeWhile_nil (p : Char → Bool) (l : List Char) :
    (l.takeWhile p).dropWhile p = [] := by
  induction l with
  | nil => rfl
  | cons a t ih =>
    by_cases h : p a = true
    · simp [List.takeWhile_cons, List.dropWhile_cons, h, ih]
    · simp only [Bool.not_eq_true] at h
      simp [List.takeWhile_cons, h]

/-- On the matched part, the matcher succeeds again, consuming everything;
part 1 of the faithfulness of re-running the regex on its own output. -/
theorem matchTail_append {host : List Char} {cls : Char → Bool} {s m r : List Char}
    (h : matchTail host cls s = some (m, r)) : s = m ++ r := by
  unfold matchTail at h
  cases hww : stripPre "www.".toList s with
  | some wrest =>
    rw [hww] at h
    simp only at h
    cases hh : stripPre host wrest with
    | none => rw [hh] at h; cases h
    | some s2 =>
      rw [hh] at h
      simp only at h
      split at h
      · cases h
      · cases h
        rw [stripPre_eq_some] at hww hh
        subst hww hh
        simp [List.append_assoc, List.takeWhile_append_dropWhile]
  | none =>
    rw [hww] at h
    simp only at h
    cases hh : stripPre host s with
    | none => rw [hh] at h; cases h
    | some s2 =>
      rw [hh] at h
      simp only at h
      split at h
      · cases h
      · cases h
        rw [stripPre_eq_some] at hh
        subst hh
        simp [List.append_assoc, List.takeWhile_append_dropWhile]

theorem matchTail_self {host : List Char} {cls : Char → Bool} {s m r : List Char}
    (hw : ∀ u : List Char, ¬ "www.".toList <+: (host ++ u))
    (h : matchTail host cls s = some (m, r)) :
    matchTail host cls m = some (m, []) ∧ host <:+: m := by
  unfold matchTail at h
  cases hww : stripPre "www.".toList s with
  | some wrest =>
    rw [hww] at h
    simp only at h
    cases hh : stripPre host wrest with
    | none => rw [hh] at h; cases h
    | some s2 =>
      rw [hh] at h
      simp only at h
      split at h
      · cases h
      · rename_i hrun
        cases h
        constructor
        · unfold matchTail
          have h1 : stripPre "www.".toList ("www.".toList ++ host ++ List.takeWhile cls s2) =
              some (host ++ List.takeWhile cls s2) := by
            rw [stripPre_eq_some, List.append_assoc]
          rw [h1]
          simp only
          have h2 : stripPre host (host ++ List.takeWhile cls s2) =
              some (List.takeWhile cls s2) := stripPre_eq_some.mpr rfl
          rw [h2]
          simp only
          rw [List.takeWhile_idem]
          split
          · rename_i hemp
            rw [hemp] at hrun
            cases hrun rfl
          · rw [dropWhile_takeWhile_nil]
        · exact ⟨"www.".toList, List.takeWhile cls s2, by simp [List.append_assoc]⟩
  | none =>
    rw [hww] at h
    simp only at h
    cases hh : stripPre host s with
    | none => rw [hh] at h; cases h
    | some s2 =>
      rw [hh] at h
      simp only at h
      split at h
      · cases h
      · rename_i hrun
        cases h
        constructor
        · unfold matchTail
          have h1 : stripPre "www.".toList ([] ++ host ++ List.takeWhile cls s2) = none := by
            rw [stripPre_eq_none]
            simpa using hw (List.takeWhile cls s2)
          rw [h1]
          simp only
          have h2 : stripPre host ([] ++ host ++ List.takeWhile cls s2) =
              some (List.takeWhile cls s2) := by
            rw [stripPre_eq_some]
            simp
          rw [h2]
          simp only
          rw [List.takeWhile_idem]
          split
          · rename_i hemp
            rw [hemp] at hrun
            cases hrun rfl
          · rw [dropWhile_takeWhile_nil]
        · exact ⟨[], List.takeWhile cls s2, by simp⟩

theorem matchAt_append {host : List Char} {cls : Char → Bool} {s m r : List Char}
    (h : matchAt host cls s = some (m, r)) : s = m ++ r := by
  unfold matchAt at h
  cases h1 : stripPre "https://".toList s with
  | some s1 =>
    rw [h1] at h
    rw [Option.map_eq_some'] at h
    obtain ⟨⟨m1, r1⟩, hmt, hp⟩ := h
    rw [Prod.mk.injEq] at hp
    obtain ⟨hm, hr⟩ := hp
    subst hm
    subst hr
    rw [stripPre_eq_some] at h1
    subst h1
    rw [matchTail_append hmt]
    simp [List.append_assoc]
  | none =>
    rw [h1] at h
    simp only at h
    cases h2 : stripPre "http://".toList s with
    | some s1 =>
      rw [h2] at h
      rw [Option.map_eq_some'] at h
      obtain ⟨⟨m1, r1⟩, hmt, hp⟩ := h
      rw [Prod.mk.injEq] at hp
      obtain ⟨hm, hr⟩ := hp
      subst hm
      subst hr
      rw [stripPre_eq_some] at h2
      subst h2
      rw [matchTail_append hmt]
      simp [List.append_assoc]
    | none => rw [h2] at h; cases h

theorem matchAt_self {host : List Char} {cls : Char → Bool} {s m r : List Char}
    (hw : ∀ u : List Char, ¬ "www.".toList <+: (host ++ u))
    (h : matchAt host cls s = some (m, r)) :
    matchAt host cls m = some (m, []) ∧ host <:+: m := by
  unfold matchAt at h
  cases h1 : stripPre "https://".toList s with
  | some s1 =>
    rw [h1] at h
    rw [Option.map_eq_some'] at h
    obtain ⟨⟨m1, r1⟩, hmt, hp⟩ := h
    rw [Prod.mk.injEq] at hp
    obtain ⟨hm, hr⟩ := hp
    subst hm
    subst hr
    obtain ⟨hself, hinf⟩ := matchTail_self hw hmt
    constructor
    · unfold matchAt
      rw [stripPre_eq_some.mpr rfl]
      simp [hself]
    · exact hinf.trans ⟨"https://".toList, [], by simp⟩
  | none =>
    rw [h1] at h
    simp only at h
    cases h2 : stripPre "http://".toList s with
    | some s1 =>
      rw [h2] at h
      rw [Option.map_eq_some'] at h
      obtain ⟨⟨m1, r1⟩, hmt, hp⟩ := h
      rw [Prod.mk.injEq] at hp
      obtain ⟨hm, hr⟩ := hp
      subst hm
      subst hr
      obtain ⟨hself, hinf⟩ := matchTail_self hw hmt
      constructor
      · unfold matchAt
        have hns : stripPre "https://".toList ("http://".toList ++ m1) = none := by
          rw [stripPre_eq_none]
          exact not_prefix_append_of_take _ 5 (by decide) (by decide)
        rw [hns]
        simp only
        rw [stripPre_eq_some.mpr rfl]
        simp [hself]
      · exact hinf.trans ⟨"http://".toList, [], by simp⟩
    | none => rw [h2] at h; cases h

theorem matchAt_nil {host : List Char} {cls : Char → Bool} :
    matchAt host cls [] = none := rfl

theorem research_of_matchAt {host : List Char} {cls : Char → Bool} {s : List Char}
    {p : List Char × List Char} (h : matchAt host cls s = some p) :
    research host cls s = some p.1 := by
  cases s with
  | nil => rw [matchAt_nil] at h; cases h
  | cons a t => simp [research, h]

theorem research_infix {host : List Char} {cls : Char → Bool} {s m : List Char}
    (h : research host cls s = some m) : m <:+: s := by
  induction s with
  | nil => cases h
  | cons a t ih =>
    rw [research] at h
    cases hma : matchAt host cls (a :: t) with
    | some p =>
      rw [hma] at h
      cases h
      exact (matchAt_append hma ▸ List.prefix_append _ _).isInfix
    | none =>
      rw [hma] at h
      exact List.infix_cons (ih h)

theorem research_self {host : List Char} {cls : Char → Bool} {s m : List Char}
    (hw : ∀ u : List Char, ¬ "www.".toList <+: (host ++ u))
    (h : research host cls s = some m) :
    research host cls m = some m ∧ host <:+: m := by
  induction s with
  | nil => cases h
  | cons a t ih =>
    rw [research] at h
    cases hma : matchAt host cls (a :: t) with
    | some p =>
      obtain ⟨m1, r1⟩ := p
      rw [hma] at h
      simp only [Option.some.injEq] at h
      subst h
      obtain ⟨hself, hinf⟩ := matchAt_self hw hma
      have hres := research_of_matchAt hself
      exact ⟨hres, hinf⟩
    | none =>
      rw [hma] at h
      exact ih h

theorem bili_no_www (u : List Char) : ¬ "www.".toList <+: (biliHost ++ u) :=
  not_prefix_append_of_take _ 1 (by decide) (by decide)

theorem yt_no_www (u : List Char) : ¬ "www.".toList <+: (ytHost ++ u) :=
  not_prefix_append_of_take _ 1 (by decide) (by decide)

/-- C5: for every source reference string `x` (bilibili URL, youtube URL, or
any unrecognized source), canonicalization is idempotent:
`_clean_url(_clean_url(x)) == _clean_url(x)`. -/
theorem clean_url_idempotent (x : String) : clean_url (clean_url x) = clean_url x := by
  cases hb : containsSub biliNeedle x.toList with
  | true =>
    cases hres : research biliHost isAlnumChar x.toList with
    | none =>
      have hx : clean_url x = x := by
        simp only [clean_url, hb, hres, if_true]
      rw [hx]
      exact hx
    | some m =>
      have hx : clean_url x = ⟨m⟩ := by
        simp only [clean_url, hb, hres, if_true]
      obtain ⟨hself, hinf⟩ := research_self bili_no_www hres
      have hcb : containsSub biliNeedle m = true := by
        rw [containsSub_iff]
        exact List.IsInfix.trans
          (List.IsPrefix.isInfix (by decide : biliNeedle <+: biliHost)) hinf
      have htl : (⟨m⟩ : String).toList = m := rfl
      rw [hx]
      simp only [clean_url, htl, hcb, hself, if_true]
  | false =>
    cases hy : containsSub ytNeedle x.toList with
    | true =>
      cases hres : research ytHost ytIdChar x.toList with
      | none =>
        have hx : clean_url x = x := by
          simp only [clean_url, hb, hy, hres, if_true, Bool.false_eq_true, if_false]
        rw [hx]
        exact hx
      | some m =>
        have hx : clean_url x = ⟨m⟩ := by
          simp only [clean_url, hb, hy, hres, if_true, Bool.false_eq_true, if_false]
        obtain ⟨hself, hinf⟩ := research_self yt_no_www hres
        have hmx : m <:+: x.toList := research_infix hres
        have hcb : containsSub biliNeedle m = false := by
          rw [Bool.eq_false_iff]
          intro hc
          rw [containsSub_iff] at hc
          have hcx : containsSub biliNeedle x.toList = true :=
            containsSub_iff.mpr (hc.trans hmx)
          rw [hb] at hcx
          exact Bool.false_ne_true hcx
        have hcy : containsSub ytNeedle m = true := by
          rw [containsSub_iff]
          exact List.IsInfix.trans
            (List.IsPrefix.isInfix (by decide : ytNeedle <+: ytHost)) hinf
        have htl : (⟨m⟩ : String).toList = m := rfl
        rw [hx]
        simp only [clean_url, htl, hcb, hcy, hself, if_true, Bool.false_eq_true, if_false]
    | false =>
      have hx : clean_url x = x := by
        simp only [clean_url, hb, hy, Bool.false_eq_true, if_false]
      rw [hx]
      exact hx

example : clean_url "https://www.bilibili.com/video/BV1xx411c7mD?p=3&spm_id_from=333" =
    "https://www.bilibili.com/video/BV1xx411c7mD" := by decide

example : clean_url "https://www.youtube.com/watch?v=dQw4w9WgXcQ&t=42s" =
    "https://www.youtube.com/watch?v=dQw4w9WgXcQ" := by decide

example : clean_url "/home/user/videos/a.mp4" = "/home/user/videos/a.mp4" := by decide

example : clean_url "https://bilibili.com/favlist?fid=1" = "https://bilibili.com/favlist?fid=1" := by
  decide

/-! ### Progress ledger: the `stats` dict

`self.stats` is a JSON dict mapping ISO date strings (plus a special
`url_stats` key) to per-day buckets.  A bucket is modelled as
`Option (List (String × ℚ))`: `none` is a non-dict value (skipped by the
`isinstance(data, dict)` checks), `some ts` a dict whose `timestamps`
entry is the association list `ts` (`data.get('timestamps', {})` yields
`[]` when absent).  Dicts are insertion-ordered association lists; Python
timestamps are floats, modelled as rationals, with `-1` the Finished
sentinel. -/

abbrev DayData := Option (List (String × ℚ))

abbrev Stats := List (String × DayData)

/-- Python dict assignment `d[k] = v`: update in place, or append. -/
def setA {α : Type} : List (String × α) → String → α → List (String × α)
  | [], k, v => [(k, v)]
  | (k0, v0) :: rest, k, v =>
    if k0 == k then (k0, v) :: rest else (k0, v0) :: setA rest k v

/-- Python string comparison `a < b`: lexicographic by code point. -/
def strLtL : List Char → List Char → Bool
  | [], [] => false
  | [], _ :: _ => true
  | _ :: _, [] => false
  | a :: as, b :: bs => if a < b then true else if b < a then false else strLtL as bs

def strLt (a b : String) : Bool := strLtL a.data b.data

/-- One insertion step of `sorted(keys, reverse=True)` (descending). -/
def insertDesc (d : String) : List String → List String
  | [] => [d]
  | x :: xs => if strLt x d then d :: x :: xs else x :: insertDesc d xs

/-- `sorted(keys, reverse=True)`: Python sorts ISO date strings
lexicographically by code point, descending. -/
def sortDesc (l : List String) : List String := l.foldr insertDesc []

inductive TsStatus
  | noRecord
  | finished
  | pos (t : ℚ)
deriving DecidableEq

/-- The newest-first scan loop of `get_saved_timestamp_status`
(lines 3524-3531): first bucket containing the cleaned url wins. -/
def scanDays (stats : Stats) (u : String) : List String → Option ℚ
  | [] => none
  | d :: ds =>
    match List.lookup d stats with
    | some (some ts) =>
      match List.lookup u ts with
      | some v => some v
      | none => scanDays stats u ds
    | _ => scanDays stats u ds

/-- Embedding of `get_saved_timestamp_status` (lines 3518-3536). -/
def get_saved_timestamp_status (stats : Stats) (url : String) : TsStatus :=
  let u := clean_url url
  let days := sortDesc (((stats.map Prod.fst).filter (fun d => d != "url_stats")))
  match scanDays stats u days with
  | some v => if v = -1 then .finished else .pos v
  | none => .noRecord

/-- The write `stats[today].setdefault('timestamps', {})[clean_url(url)] = v`
with `stats[today] = {'timestamps': {}}` created when today is absent
(`save_current_timestamp`, lines 3429-3440; `v = -1` in the finished
branch, the probed position otherwise).  A non-dict bucket under `today`
would raise in Python; the model leaves the ledger unchanged there. -/
def record_ts (stats : Stats) (today url : String) (v : ℚ) : Stats :=
  let u := clean_url url
  match List.lookup today stats with
  | none => setA stats today (some [(u, v)])
  | some none => stats
  | some (some ts) => setA stats today (some (setA ts u v))

/-- `RecordFinished`: the finished branch of `save_current_timestamp`
(lines 3429-3434) stores the sentinel `-1`. -/
def record_finished (stats : Stats) (today url : String) : Stats :=
  record_ts stats today url (-1)

/-- Embedding of `save_current_timestamp` (lines 3423-3442): `finished` is
the value of `is_video_finished()` and `timestamp` the probed playback
position (`get_video_timestamp()`); the guard is
`if not self.save_timestamp_var.get() or not self.current_url: return`. -/
def save_current_timestamp (save_timestamp_var : Bool) (current_url : String)
    (finished : Bool) (timestamp : ℚ) (today : String) (stats : Stats) : Stats :=
  if ¬ save_timestamp_var ∨ current_url = "" then stats
  else if finished then record_ts stats today current_url (-1)
  else if timestamp > 0 then record_ts stats today current_url timestamp
  else stats

/-! #### Ledger lemmas -/

theorem setA_of_lookup_none {α : Type} {l : List (String × α)} {k : String} (v : α)
    (h : List.lookup k l = none) : setA l k v = l ++ [(k, v)] := by
  induction l with
  | nil => rfl
  | cons p rest ih =>
    obtain ⟨k0, v0⟩ := p
    rw [List.lookup] at h
    rw [setA]
    cases hk : k == k0 with
    | true => rw [hk] at h; cases h
    | false =>
      rw [hk] at h
      rw [if_neg]
      · rw [ih h]
        simp
      · intro hc
        rw [beq_iff_eq] at hc
        subst hc
        simp at hk

theorem lookup_append_of_none {α : Type} {l₁ : List (String × α)} (l₂ : List (String × α))
    {k : String} (h : List.lookup k l₁ = none) :
    List.lookup k (l₁ ++ l₂) = List.lookup k l₂ := by
  induction l₁ with
  | nil => rfl
  | cons p rest ih =>
    obtain ⟨k0, v0⟩ := p
    rw [List.lookup] at h
    rw [List.cons_append, List.lookup]
    cases hk : k == k0 with
    | true => rw [hk] at h; cases h
    | false => rw [hk] at h; exact ih h

theorem strLtL_asymm : ∀ (a b : List Char), strLtL a b = true → strLtL b a = false := by
  intro a
  induction a with
  | nil =>
    intro b h
    cases b with
    | nil => cases h
    | cons y ys => rfl
  | cons x xs ih =>
    intro b h
    cases b with
    | nil => cases h
    | cons y ys =>
      rw [strLtL] at h ⊢
      split at h
      · rename_i hxy
        rw [if_neg (lt_asymm hxy), if_pos hxy]
      · rename_i hxy
        split at h
        · cases h
        · rename_i hyx
          rw [if_neg hyx, if_neg hxy]
          exact ih ys h

theorem strLt_asymm {a b : String} (h : strLt a b = true) : strLt b a = false :=
  strLtL_asymm a.data b.data h

theorem mem_insertDesc {d x : String} {l : List String} :
    x ∈ insertDesc d l ↔ x = d ∨ x ∈ l := by
  induction l with
  | nil => simp [insertDesc]
  | cons a t ih =>
    rw [insertDesc]
    split
    · simp [or_comm, or_assoc, or_left_comm]
    · simp [ih]
      tauto

theorem foldr_insertDesc_max {d : String} :
    ∀ (l t : List String), (∀ x ∈ l, strLt x d = true) → (∀ x ∈ t, strLt x d = true) →
    ∃ u, List.foldr insertDesc (d :: t) l = d :: u ∧ ∀ x ∈ u, strLt x d = true := by
  intro l
  induction l with
  | nil => intro t _ h2; exact ⟨t, rfl, h2⟩
  | cons a l ih =>
    intro t h1 h2
    obtain ⟨u, hu, hux⟩ := ih t (fun x hx => h1 x (List.mem_cons_of_mem _ hx)) h2
    have ha : strLt a d = true := h1 a (List.mem_cons_self _ _)
    rw [List.foldr_cons, hu, insertDesc, strLt_asymm ha]
    simp only [Bool.false_eq_true, if_false]
    refine ⟨insertDesc a u, rfl, fun x hx => ?_⟩
    rcases mem_insertDesc.mp hx with rfl | hx
    · exact ha
    · exact hux x hx

theorem sortDesc_strict_max {l : List String} {d : String}
    (h : ∀ x ∈ l, strLt x d = true) :
    ∃ u, sortDesc (l ++ [d]) = d :: u ∧ ∀ x ∈ u, strLt x d = true := by
  unfold sortDesc
  rw [List.foldr_append]
  exact foldr_insertDesc_max l [] h (by simp)

/-- C3: the saved-status lookup scans date buckets newest-first and returns
the value found in the most recent bucket containing the ref; recording a
ref as finished today and then looking it up returns Finished even when an
older numeric position for the same canonical ref exists from an earlier
date. -/
theorem record_finished_then_lookup (stats : Stats) (today url d_old : String) (q : ℚ)
    (hfresh : List.lookup today stats = none)
    (hdays : ∀ d ∈ stats.map Prod.fst, d = "url_stats" ∨ strLt d today = true)
    (hts : today ≠ "url_stats")
    (hold : ∃ ts, List.lookup d_old stats = some (some ts) ∧
      List.lookup (clean_url url) ts = some q ∧ q ≠ -1) :
    get_saved_timestamp_status (record_finished stats today url) url = .finished := by
  clear hold
  have hrec : record_finished stats today url =
      stats ++ [(today, some [(clean_url url, -1)])] := by
    unfold record_finished record_ts
    rw [hfresh]
    exact setA_of_lookup_none _ hfresh
  rw [hrec]
  unfold get_saved_timestamp_status
  have hkeys : ((stats ++ [(today, some [(clean_url url, -1)])]).map Prod.fst).filter
      (fun d => d != "url_stats") =
      ((stats.map Prod.fst).filter (fun d => d != "url_stats")) ++ [today] := by
    rw [List.map_append, List.filter_append]
    simp [hts]
  rw [hkeys]
  have hlt : ∀ x ∈ (stats.map Prod.fst).filter (fun d => d != "url_stats"),
      strLt x today = true := by
    intro x hx
    rw [List.mem_filter] at hx
    rcases hdays x hx.1 with rfl | h
    · simp at hx
    · exact h
  obtain ⟨u, hu, _⟩ := sortDesc_strict_max hlt
  rw [hu]
  have hlk : List.lookup today (stats ++ [(today, some [(clean_url url, -1)])]) =
      some (some [(clean_url url, -1)]) := by
    rw [lookup_append_of_none _ hfresh]
    simp [List.lookup]
  simp [scanDays, hlk, List.lookup]

/-- C10: if the item is not judged finished and the probed playback
position is not greater than zero, `save_current_timestamp` leaves the
ledger unchanged — an existing saved position or Finished sentinel is never
overwritten with zero. -/
theorem save_zero_position_no_overwrite (sv : Bool) (url today : String)
    (ts : ℚ) (stats : Stats) (h : ¬ ts > 0) :
    save_current_timestamp sv url false ts today stats = stats ∧
    get_saved_timestamp_status (save_current_timestamp sv url false ts today stats) url =
      get_saved_timestamp_status stats url := by
  have he : save_current_timestamp sv url false ts today stats = stats := by
    unfold save_current_timestamp
    split
    · rfl
    · simp [h]
  exact ⟨he, by rw [he]⟩

theorem save_zero_position_no_overwrite_witness :
    ¬ (0 : ℚ) > 0 ∧
      save_current_timestamp true "u" false 0 "2025-02-02"
        [("2025-01-01", some [("u", 5)])] = [("2025-01-01", some [("u", 5)])] :=
  ⟨by decide,
    (save_zero_position_no_overwrite true "u" "2025-02-02" 0
      [("2025-01-01", some [("u", 5)])] (by decide)).1⟩

theorem record_finished_then_lookup_witness :
    List.lookup "2025-02-02" [("2025-01-01", some [("u", (5 : ℚ))])] = none ∧
      get_saved_timestamp_status
        (record_finished [("2025-01-01", some [("u", (5 : ℚ))])] "2025-02-02" "u") "u" =
        .finished :=
  ⟨by decide,
    record_finished_then_lookup [("2025-01-01", some [("u", (5 : ℚ))])] "2025-02-02" "u"
      "2025-01-01" 5 (by decide) (by decide) (by decide)
      ⟨[("u", (5 : ℚ))], by decide, by decide, by decide⟩⟩

/-! ### SmartShuffle queue build (`monitor_loop`, lines 2867-2879)

`random.shuffle` is modelled by a function parameter `shuffle`; properties
that depend on it assume only that it permutes its input. -/

/-- The SmartShuffle branch of `monitor_loop` (lines 2871-2875):
`watched` and `unwatched` are list-comprehension filters of the queue by
`get_saved_timestamp_status(url) == "finished"`, the unwatched half is
shuffled, and the queue becomes `unwatched + watched`. -/
def smart_shuffle_build (shuffle : List String → List String) (stats : Stats)
    (queue : List String) : List String :=
  let watched := queue.filter (fun url => get_saved_timestamp_status stats url == .finished)
  let unwatched :=
    queue.filter (fun url => !(get_saved_timestamp_status stats url == .finished))
  shuffle unwatched ++ watched

/-- C4: under SmartShuffle, the built queue places all unwatched items (in
some permuted order) before all finished items, and the finished items keep
the relative order they had in the input pool. -/
theorem smart_shuffle_spec (shuffle : List String → List String) (stats : Stats)
    (queue : List String) (hperm : ∀ l, (shuffle l).Perm l) :
    ∃ u, u.Perm (queue.filter
        (fun url => !(get_saved_timestamp_status stats url == .finished))) ∧
      smart_shuffle_build shuffle stats queue =
        u ++ queue.filter (fun url => get_saved_timestamp_status stats url == .finished) ∧
      (∀ x ∈ u, get_saved_timestamp_status stats x ≠ .finished) ∧
      (∀ x ∈ queue.filter (fun url => get_saved_timestamp_status stats url == .finished),
        get_saved_timestamp_status stats x = .finished) := by
  refine ⟨shuffle _, hperm _, rfl, ?_, ?_⟩
  · intro x hx
    have hx2 := (hperm _).mem_iff.mp hx
    rw [List.mem_filter] at hx2
    simpa using hx2.2
  · intro x hx
    rw [List.mem_filter] at hx
    simpa using hx.2

theorem smart_shuffle_spec_witness :
    (∀ l : List String, (id l).Perm l) ∧
    ∃ u, u.Perm ((["a", "b"]).filter
        (fun url =>
          !(get_saved_timestamp_status [("2025-01-01", some [("a", (-1 : ℚ))])] url ==
            .finished))) ∧
      smart_shuffle_build id [("2025-01-01", some [("a", (-1 : ℚ))])] ["a", "b"] =
        u ++ (["a", "b"]).filter
          (fun url =>
            get_saved_timestamp_status [("2025-01-01", some [("a", (-1 : ℚ))])] url ==
              .finished) ∧
      (∀ x ∈ u,
        get_saved_timestamp_status [("2025-01-01", some [("a", (-1 : ℚ))])] x ≠ .finished) ∧
      (∀ x ∈ (["a", "b"]).filter
          (fun url =>
            get_saved_timestamp_status [("2025-01-01", some [("a", (-1 : ℚ))])] url ==
              .finished),
        get_saved_timestamp_status [("2025-01-01", some [("a", (-1 : ℚ))])] x = .finished) :=
  ⟨fun l => List.Perm.refl l,
    smart_shuffle_spec id [("2025-01-01", some [("a", (-1 : ℚ))])] ["a", "b"]
      (fun l => List.Perm.refl l)⟩

/-! ### Playlist-mode change (`on_playlist_mode_change`, lines 1334-1388,
and `rebuild_queue_dynamically`, lines 1390-1443) -/

/-- The application state touched by a mode change.  `playlist_mode` is
`playlist_mode_var`, `previous_mode` is `previous_playlist_mode`,
`all_tree_items` is the url column of the backing list in visual order,
and the six booleans are the ordering-flag variables. -/
structure ModeState where
  is_monitoring : Bool
  playlist_mode : String
  previous_mode : String
  all_tree_items : List String
  main_queue : List String
  main_queue_index : Nat
  current_url : String
  expand_playlists : Bool
  random_list : Bool
  true_random_on_skip : Bool
  smart_shuffle : Bool
  shuffle_within_playlists : Bool
  sequential_playlists : Bool
deriving DecidableEq

/-- Embedding of `rebuild_queue_dynamically` (lines 1390-1443).  Python
`original_urls.index(current_url)` (first occurrence, `ValueError` when
absent) is `List.findIdx?`; `main_queue[:i]` / `main_queue[i+1:]` are
`take` / `drop`. -/
def rebuild_queue_dynamically (shuffle : List String → List String)
    (s : ModeState) (new_mode : String) : ModeState :=
  if s.main_queue = [] ∨ s.current_url = "" then s
  else
    let played := s.main_queue.take s.main_queue_index
    let upcoming :=
      if new_mode = "Sequential" then
        match s.all_tree_items.findIdx? (fun u => u == s.current_url) with
        | some i => s.all_tree_items.drop (i + 1)
        | none => s.main_queue.drop (s.main_queue_index + 1)
      else if new_mode = "Shuffle All" ∨ new_mode = "Smart Shuffle" then
        match s.all_tree_items.findIdx? (fun u => u == s.current_url) with
        | some i => shuffle (s.all_tree_items.drop (i + 1))
        | none => shuffle (s.main_queue.drop (s.main_queue_index + 1))
      else s.main_queue.drop (s.main_queue_index + 1)
    { s with main_queue := played ++ [s.current_url] ++ upcoming }

/-- Embedding of `on_playlist_mode_change` (lines 1334-1388).  The Tk
variable `playlist_mode_var` already holds the new selection when the
callback runs; checkbox enable/disable is UI-only and not modelled. -/
def on_playlist_mode_change (shuffle : List String → List String)
    (s0 : ModeState) (new_mode : String) : ModeState :=
  let s1 := { s0 with playlist_mode := new_mode }
  if s1.is_monitoring ∧ new_mode = "True Random" then
    { s1 with playlist_mode := s1.previous_mode }
  else
    let s2 := if s1.is_monitoring then rebuild_queue_dynamically shuffle s1 new_mode else s1
    let s3 := { s2 with previous_mode := new_mode }
    if new_mode ≠ "Custom" then
      { s3 with
        expand_playlists := (new_mode = "Sequential" ∨ new_mode = "Shuffle All")
        random_list := (new_mode = "Shuffle All")
        true_random_on_skip := (new_mode = "True Random")
        smart_shuffle := (new_mode = "Smart Shuffle")
        shuffle_within_playlists := false
        sequential_playlists := (new_mode = "Sequential") }
    else s3

/-- C7: a mid-session mode change (excluding True Random) keeps the played
prefix and the current item verbatim and replaces only the not-yet-played
suffix according to the new mode; Custom changed to Sequential with an
already-sequential remainder leaves the queue unchanged; when the current
item is not found in the backing list only the remaining in-memory suffix
is used (reordered for the shuffle modes). -/
theorem rebuild_mode_change_spec (shuffle : List String → List String) (s : ModeState)
    (new_mode : String) (hq : s.main_queue ≠ []) (hc : s.current_url ≠ "") :
    (∃ up, rebuild_queue_dynamically shuffle s new_mode =
        { s with main_queue :=
            s.main_queue.take s.main_queue_index ++ [s.current_url] ++ up }) ∧
    (∀ flags : Bool,
      rebuild_queue_dynamically shuffle
        { is_monitoring := true, playlist_mode := "Custom", previous_mode := "Custom",
          all_tree_items := ["A", "B", "C", "D", "E"],
          main_queue := ["A", "B", "C", "D", "E"], main_queue_index := 1,
          current_url := "B", expand_playlists := flags, random_list := flags,
          true_random_on_skip := flags, smart_shuffle := flags,
          shuffle_within_playlists := flags, sequential_playlists := flags }
        "Sequential" =
      { is_monitoring := true, playlist_mode := "Custom", previous_mode := "Custom",
        all_tree_items := ["A", "B", "C", "D", "E"],
        main_queue := ["A", "B", "C", "D", "E"], main_queue_index := 1,
        current_url := "B", expand_playlists := flags, random_list := flags,
        true_random_on_skip := flags, smart_shuffle := flags,
        shuffle_within_playlists := flags, sequential_playlists := flags }) ∧
    (s.all_tree_items.findIdx? (fun u => u == s.current_url) = none →
      rebuild_queue_dynamically shuffle s "Sequential" =
        { s with main_queue := s.main_queue.take s.main_queue_index ++ [s.current_url] ++
            s.main_queue.drop (s.main_queue_index + 1) } ∧
      rebuild_queue_dynamically shuffle s "Shuffle All" =
        { s with main_queue := s.main_queue.take s.main_queue_index ++ [s.current_url] ++
            shuffle (s.main_queue.drop (s.main_queue_index + 1)) }) := by
  refine ⟨?_, ?_, ?_⟩
  · unfold rebuild_queue_dynamically
    rw [if_neg (by simp [hq, hc])]
    exact ⟨_, rfl⟩
  · intro flags
    rfl
  · intro hnone
    constructor
    · unfold rebuild_queue_dynamically
      rw [if_neg (by simp [hq, hc])]
      simp [hnone]
    · unfold rebuild_queue_dynamically
      rw [if_neg (by simp [hq, hc])]
      simp [hnone]

theorem rebuild_mode_change_spec_witness :
    ((["x", "y"] : List String) ≠ [] ∧ ("x" : String) ≠ "") ∧
    (∃ up, rebuild_queue_dynamically id
        { is_monitoring := true, playlist_mode := "Custom", previous_mode := "Custom",
          all_tree_items := [], main_queue := ["x", "y"], main_queue_index := 0,
          current_url := "x", expand_playlists := false, random_list := false,
          true_random_on_skip := false, smart_shuffle := false,
          shuffle_within_playlists := false, sequential_playlists := false }
        "Custom" =
        { is_monitoring := true, playlist_mode := "Custom", previous_mode := "Custom",
          all_tree_items := [], main_queue := (["x", "y"] : List String).take 0 ++ ["x"] ++ up,
          main_queue_index := 0,
          current_url := "x", expand_playlists := false, random_list := false,
          true_random_on_skip := false, smart_shuffle := false,
          shuffle_within_playlists := false, sequential_playlists := false }) :=
  ⟨⟨by decide, by decide⟩,
    ((rebuild_mode_change_spec id
      { is_monitoring := true, playlist_mode := "Custom", previous_mode := "Custom",
        all_tree_items := [], main_queue := ["x", "y"], main_queue_index := 0,
        current_url := "x", expand_playlists := false, random_list := false,
        true_random_on_skip := false, smart_shuffle := false,
        shuffle_within_playlists := false, sequential_playlists := false }
      "Custom" (by decide) (by decide)).1)⟩

/-- C8 (amended): while a session is active, a switch INTO True Random is
rejected: the selection reverts to the previous mode and every other field
(queue, index, session flag, ordering flags, previous mode) is unchanged.
Switching OUT of True Random is not rejected (see the counterexample). -/
theorem true_random_switch_into_rejected (shuffle : List String → List String)
    (s : ModeState) (hmon : s.is_monitoring = true) :
    on_playlist_mode_change shuffle s "True Random" =
      { s with playlist_mode := s.previous_mode } := by
  unfold on_playlist_mode_change
  rw [if_pos ⟨by simpa using hmon, rfl⟩]

theorem true_random_switch_into_rejected_witness :
    ({ is_monitoring := true, playlist_mode := "Sequential", previous_mode := "Sequential",
       all_tree_items := ["a"], main_queue := ["a"], main_queue_index := 0,
       current_url := "a", expand_playlists := true, random_list := false,
       true_random_on_skip := false, smart_shuffle := false,
       shuffle_within_playlists := false, sequential_playlists := true } : ModeState).is_monitoring
      = true ∧
    on_playlist_mode_change id
      { is_monitoring := true, playlist_mode := "Sequential", previous_mode := "Sequential",
        all_tree_items := ["a"], main_queue := ["a"], main_queue_index := 0,
        current_url := "a", expand_playlists := true, random_list := false,
        true_random_on_skip := false, smart_shuffle := false,
        shuffle_within_playlists := false, sequential_playlists := true }
      "True Random" =
      { is_monitoring := true, playlist_mode := "Sequential", previous_mode := "Sequential",
        all_tree_items := ["a"], main_queue := ["a"], main_queue_index := 0,
        current_url := "a", expand_playlists := true, random_list := false,
        true_random_on_skip := false, smart_shuffle := false,
        shuffle_within_playlists := false, sequential_playlists := true } :=
  ⟨rfl,
    true_random_switch_into_rejected id
      { is_monitoring := true, playlist_mode := "Sequential", previous_mode := "Sequential",
        all_tree_items := ["a"], main_queue := ["a"], main_queue_index := 0,
        current_url := "a", expand_playlists := true, random_list := false,
        true_random_on_skip := false, smart_shuffle := false,
        shuffle_within_playlists := false, sequential_playlists := true } rfl⟩

/-- C8 counterexample: with a session active and the current mode True
Random, selecting Sequential is NOT rejected — the mode becomes Sequential
(no revert), the remembered previous mode is overwritten, and the ordering
flags are rewritten — contradicting the claim that any switch into or out
of True Random is disallowed with the selection reverting. -/
theorem true_random_switch_out_allowed :
    (on_playlist_mode_change id
      { is_monitoring := true, playlist_mode := "True Random", previous_mode := "True Random",
        all_tree_items := ["a", "b"], main_queue := ["a", "b"], main_queue_index := 0,
        current_url := "a", expand_playlists := false, random_list := false,
        true_random_on_skip := true, smart_shuffle := false,
        shuffle_within_playlists := false, sequential_playlists := false }
      "Sequential").playlist_mode = "Sequential" ∧
    (on_playlist_mode_change id
      { is_monitoring := true, playlist_mode := "True Random", previous_mode := "True Random",
        all_tree_items := ["a", "b"], main_queue := ["a", "b"], main_queue_index := 0,
        current_url := "a", expand_playlists := false, random_list := false,
        true_random_on_skip := true, smart_shuffle := false,
        shuffle_within_playlists := false, sequential_playlists := false }
      "Sequential").previous_mode = "Sequential" ∧
    (on_playlist_mode_change id
      { is_monitoring := true, playlist_mode := "True Random", previous_mode := "True Random",
        all_tree_items := ["a", "b"], main_queue := ["a", "b"], main_queue_index := 0,
        current_url := "a", expand_playlists := false, random_list := false,
        true_random_on_skip := true, smart_shuffle := false,
        shuffle_within_playlists := false, sequential_playlists := false }
      "Sequential").true_random_on_skip = false := by
  refine ⟨?_, ?_, ?_⟩ <;> rfl

/-! ### Audio silence monitor (`preview_callback`, lines 1901-1958)

Each audio-driver callback reads the gain-multiplied vector norm of the
sample block and the ambient Tk variables.  `time.time()` values are
rationals; a `Sample` carries the values observed during one callback. -/

structure Sample where
  t : ℚ
  vol : ℚ
  afkGate : Bool
  monitoring : Bool
  paused : Bool
deriving DecidableEq

/-- Monitor state mutated by `preview_callback`: `last_silence_time`,
`last_sound_time`, `silence_start_time` (None while sound is above the
noise floor), and the session-timer fields `monitored_time_started` /
`monitoring_start_time`. -/
structure SilState where
  lastSilence : ℚ
  lastSound : ℚ
  silenceStart : Option ℚ
  monitoredStarted : Bool
  monitoringStart : ℚ
deriving DecidableEq

/-- Configuration: `silence_threshold_var` (noise floor),
`silence_minutes_var * 60` (trigger duration, seconds),
`sound_threshold_var` (confirmed-sound floor). -/
structure SilConfig where
  floor : ℚ
  dur : ℚ
  soundFloor : ℚ
deriving DecidableEq

/-- The silence-detection block of `preview_callback` (lines 1913-1950),
acting on the state `s1` that already received the `last_silence_time` /
`last_sound_time` update.  Returns the new state and whether the trigger
fired (the callback scheduled `handle_silence_trigger` or
`start_monitoring_with_resume`). -/
def silence_branch (cfg : SilConfig) (s1 : SilState) (x : Sample) : SilState × Bool :=
  if x.vol < cfg.floor then
    match s1.silenceStart with
    | none => ({ s1 with silenceStart := some x.t }, false)
    | some st =>
      if cfg.dur - (x.t - st) ≤ 0 then
        if x.afkGate then ({ s1 with silenceStart := some x.t }, false)
        else ({ s1 with silenceStart := none },
          (x.monitoring && !x.paused) || !x.monitoring)
      else (s1, false)
  else ({ s1 with silenceStart := none }, false)

/-- The first-sound session-timer block of `preview_callback`
(lines 1952-1958). -/
def timer_branch (cfg : SilConfig) (s2 : SilState) (x : Sample) : SilState :=
  if x.monitoring = true ∧ x.paused = false ∧ s2.monitoredStarted = false ∧
      x.vol > cfg.soundFloor
  then { s2 with monitoredStarted := true, monitoringStart := x.t }
  else s2

/-- Embedding of one `preview_callback` invocation (lines 1901-1958),
restricted to the monitor state (UI countdown updates and the audio
visualisation buffer are display-only).  `afkGate` stands for
`afk_enabled_var.get() and self.is_afk`. -/
def preview_callback (cfg : SilConfig) (s : SilState) (x : Sample) : SilState × Bool :=
  let s1 := if x.vol < cfg.floor then { s with lastSilence := x.t }
            else { s with lastSound := x.t }
  let p := silence_branch cfg s1 x
  (timer_branch cfg p.1 x, p.2)

/-- Fold `preview_callback` over a sample stream, collecting the times of
the callbacks at which the trigger fired. -/
def preview_run (cfg : SilConfig) : SilState → List Sample → SilState × List ℚ
  | s, [] => (s, [])
  | s, x :: xs =>
    let st := preview_callback cfg s x
    let rest := preview_run cfg st.1 xs
    (rest.1, if st.2 then x.t :: rest.2 else rest.2)

/-! #### Monitor lemmas -/

theorem timer_branch_silenceStart (cfg : SilConfig) (s2 : SilState) (x : Sample) :
    (timer_branch cfg s2 x).silenceStart = s2.silenceStart := by
  unfold timer_branch
  split <;> rfl

theorem timer_branch_no_sound {cfg : SilConfig} {s2 : SilState} {x : Sample}
    (h : ¬ x.vol > cfg.soundFloor) : timer_branch cfg s2 x = s2 := by
  unfold timer_branch
  rw [if_neg (fun hc => h hc.2.2.2)]

theorem s1_silenceStart (c : Prop) [Decidable c] (s : SilState) (t : ℚ) :
    ((if c then { s with lastSilence := t } else { s with lastSound := t }) :
      SilState).silenceStart = s.silenceStart := by
  split <;> rfl

theorem silence_branch_fired {cfg : SilConfig} {s1 : SilState} {x : Sample}
    (h : (silence_branch cfg s1 x).2 = true) :
    (silence_branch cfg s1 x).1.silenceStart = none ∧ x.afkGate = false ∧
      x.vol < cfg.floor ∧ ∃ st, s1.silenceStart = some st ∧ st + cfg.dur ≤ x.t := by
  unfold silence_branch at h ⊢
  by_cases hv : x.vol < cfg.floor
  · simp only [if_pos hv] at h ⊢
    cases hss : s1.silenceStart with
    | none => simp only [hss] at h; cases h
    | some st =>
      simp only [hss] at h ⊢
      by_cases hrem : cfg.dur - (x.t - st) ≤ 0
      · simp only [if_pos hrem] at h ⊢
        by_cases hafk : x.afkGate = true
        · simp only [if_pos hafk] at h; cases h
        · simp only [if_neg hafk] at h ⊢
          exact ⟨by trivial, Bool.eq_false_iff.mpr hafk, hv, st, by trivial, by linarith⟩
      · simp only [if_neg hrem] at h; cases h
  · simp only [if_neg hv] at h; cases h

theorem silence_branch_start {cfg : SilConfig} {s1 : SilState} {x : Sample} {st2 : ℚ}
    (h2 : (silence_branch cfg s1 x).1.silenceStart = some st2) :
    st2 = x.t ∨ s1.silenceStart = some st2 := by
  unfold silence_branch at h2
  by_cases hv : x.vol < cfg.floor
  · simp only [if_pos hv] at h2
    cases hss : s1.silenceStart with
    | none =>
      simp only [hss] at h2
      exact Or.inl (Option.some.inj h2).symm
    | some st =>
      simp only [hss] at h2
      by_cases hrem : cfg.dur - (x.t - st) ≤ 0
      · simp only [if_pos hrem] at h2
        by_cases hafk : x.afkGate = true
        · simp only [if_pos hafk] at h2
          exact Or.inl (Option.some.inj h2).symm
        · simp only [if_neg hafk] at h2
          exact Option.noConfusion h2
      · simp only [if_neg hrem] at h2
        exact Or.inr (hss ▸ h2)
  · simp only [if_neg hv] at h2
    exact Option.noConfusion h2

theorem preview_callback_fired {cfg : SilConfig} {s : SilState} {x : Sample}
    (h : (preview_callback cfg s x).2 = true) :
    (preview_callback cfg s x).1.silenceStart = none ∧ x.afkGate = false ∧
      x.vol < cfg.floor ∧ ∃ st, s.silenceStart = some st ∧ st + cfg.dur ≤ x.t := by
  have h2 : (silence_branch cfg
      (if x.vol < cfg.floor then { s with lastSilence := x.t }
        else { s with lastSound := x.t }) x).2 = true := h
  obtain ⟨h1, hafk, hv, st, hst, hsep⟩ := silence_branch_fired h2
  rw [s1_silenceStart] at hst
  refine ⟨?_, hafk, hv, st, hst, hsep⟩
  show (timer_branch cfg (silence_branch cfg
      (if x.vol < cfg.floor then { s with lastSilence := x.t }
        else { s with lastSound := x.t }) x).1 x).silenceStart = none
  rw [timer_branch_silenceStart]
  exact h1

theorem preview_callback_start {cfg : SilConfig} {s : SilState} {x : Sample} {st2 : ℚ}
    (h2 : (preview_callback cfg s x).1.silenceStart = some st2) :
    st2 = x.t ∨ s.silenceStart = some st2 := by
  have h3 : (silence_branch cfg
      (if x.vol < cfg.floor then { s with lastSilence := x.t }
        else { s with lastSound := x.t }) x).1.silenceStart = some st2 := by
    rw [← timer_branch_silenceStart cfg _ x]
    exact h2
  rcases silence_branch_start h3 with h | h
  · exact Or.inl h
  · right
    rw [s1_silenceStart] at h
    exact h

theorem preview_run_fire_sep (cfg : SilConfig) :
    ∀ (xs : List Sample) (s : SilState) (b : ℚ),
      (∀ st, s.silenceStart = some st → b ≤ st) →
      (∀ x ∈ xs, b ≤ x.t) →
      List.Pairwise (· ≤ ·) (xs.map Sample.t) →
      (∀ f ∈ (preview_run cfg s xs).2, b + cfg.dur ≤ f) ∧
      List.Chain' (fun a c => a + cfg.dur ≤ c) (preview_run cfg s xs).2 := by
  intro xs
  induction xs with
  | nil => intro s b _ _ _; simp [preview_run]
  | cons x xs ih =>
    intro s b hb hfut hpw
    have hhead : ∀ y ∈ xs, x.t ≤ y.t := by
      intro y hy
      rw [List.map_cons, List.pairwise_cons] at hpw
      exact hpw.1 y.t (List.mem_map_of_mem _ hy)
    have hpw2 : List.Pairwise (· ≤ ·) (xs.map Sample.t) := by
      rw [List.map_cons, List.pairwise_cons] at hpw
      exact hpw.2
    have hbx : b ≤ x.t := hfut x (List.mem_cons_self _ _)
    rw [preview_run]
    cases hf : (preview_callback cfg s x).2 with
    | true =>
      obtain ⟨hnone, _, _, st, hst, hsep⟩ := preview_callback_fired hf
      have hbst : b ≤ st := hb st hst
      obtain ⟨hall2, hch2⟩ := ih (preview_callback cfg s x).1 x.t
        (fun st2 hst2 => absurd hst2 (by rw [hnone]; intro hc; cases hc))
        (fun y hy => hhead y hy) hpw2
      simp only [hf, if_true]
      constructor
      · intro f hfm
        rcases List.mem_cons.mp hfm with rfl | hfm
        · linarith
        · have := hall2 f hfm
          linarith
      · rw [List.chain'_cons']
        refine ⟨?_, hch2⟩
        intro c hc
        have hcm : c ∈ (preview_run cfg (preview_callback cfg s x).1 xs).2 :=
          List.mem_of_mem_head? hc
        have := hall2 c hcm
        linarith
    | false =>
      have hb2 : ∀ st2, (preview_callback cfg s x).1.silenceStart = some st2 → b ≤ st2 := by
        intro st2 hst2
        rcases preview_callback_start hst2 with rfl | hcarry
        · exact hbx
        · exact hb st2 hcarry
      obtain ⟨hall2, hch2⟩ := ih (preview_callback cfg s x).1 b hb2
        (fun y hy => hfut y (List.mem_cons_of_mem _ hy)) hpw2
      simp only [hf, Bool.false_eq_true, if_false]
      exact ⟨hall2, hch2⟩

/-- C2 (amended): the trigger fires only on a below-floor sample with the
AFK gate inactive, when the elapsed time since `silenceStartTime` reaches
the configured duration, and firing resets `silenceStartTime` (to None);
consequently two firings are always at least the configured duration
apart.  However the claim that the trigger never fires twice without an
intervening sound-above-floor event or AFK-state change is false:
continued silence re-arms the cleared timer, so the trigger fires again
after each further full duration of uninterrupted silence (see the
counterexample). -/
theorem silence_trigger_spec (cfg : SilConfig) (s : SilState) (xs : List Sample)
    (hstart : s.silenceStart = none)
    (hpw : List.Pairwise (· ≤ ·) (xs.map Sample.t)) :
    List.Chain' (fun a c => a + cfg.dur ≤ c) (preview_run cfg s xs).2 ∧
    (∀ (s2 : SilState) (x : Sample), (preview_callback cfg s2 x).2 = true →
      (preview_callback cfg s2 x).1.silenceStart = none ∧ x.afkGate = false ∧
        x.vol < cfg.floor ∧ ∃ st, s2.silenceStart = some st ∧ st + cfg.dur ≤ x.t) := by
  constructor
  · cases xs with
    | nil => simp [preview_run]
    | cons x xs =>
      refine (preview_run_fire_sep cfg (x :: xs) s x.t ?_ ?_ hpw).2
      · intro st hst
        rw [hstart] at hst
        cases hst
      · intro y hy
        rcases List.mem_cons.mp hy with rfl | hy
        · exact le_refl _
        · rw [List.map_cons, List.pairwise_cons] at hpw
          exact hpw.1 y.t (List.mem_map_of_mem _ hy)
  · intro s2 x hf
    exact preview_callback_fired hf

/-- C2 counterexample: four below-floor samples with the AFK gate constant
and no sound-above-floor event anywhere make the trigger fire twice (at
t=10 and t=21), refuting the claim that the trigger never fires twice
without an intervening sound event or AFK change. -/
theorem silence_trigger_double_fire :
    (preview_run ⟨1, 10, 2⟩ ⟨0, 0, none, false, 0⟩
      [⟨0, 0, false, true, false⟩, ⟨10, 0, false, true, false⟩,
       ⟨11, 0, false, true, false⟩, ⟨21, 0, false, true, false⟩]).2 = [10, 21] ∧
    (∀ x ∈ [(⟨0, 0, false, true, false⟩ : Sample), ⟨10, 0, false, true, false⟩,
       ⟨11, 0, false, true, false⟩, ⟨21, 0, false, true, false⟩],
      x.vol < (1 : ℚ) ∧ x.afkGate = false) := by
  constructor
  · norm_num [preview_run, preview_callback, silence_branch, timer_branch]
  · norm_num

theorem silence_trigger_spec_witness :
    (⟨0, 0, none, false, 0⟩ : SilState).silenceStart = none ∧
    List.Pairwise (· ≤ ·) (([⟨0, 0, false, true, false⟩, ⟨10, 0, false, true, false⟩,
       ⟨11, 0, false, true, false⟩, ⟨21, 0, false, true, false⟩] : List Sample).map Sample.t) ∧
    List.Chain' (fun a c => a + (⟨1, 10, 2⟩ : SilConfig).dur ≤ c)
      (preview_run ⟨1, 10, 2⟩ ⟨0, 0, none, false, 0⟩
        [⟨0, 0, false, true, false⟩, ⟨10, 0, false, true, false⟩,
         ⟨11, 0, false, true, false⟩, ⟨21, 0, false, true, false⟩]).2 :=
  ⟨rfl, by norm_num,
    (silence_trigger_spec ⟨1, 10, 2⟩ ⟨0, 0, none, false, 0⟩
      [⟨0, 0, false, true, false⟩, ⟨10, 0, false, true, false⟩,
       ⟨11, 0, false, true, false⟩, ⟨21, 0, false, true, false⟩] rfl (by norm_num)).1⟩

/-- C6 (amended): a block whose gain-multiplied norm lies strictly between
the noise floor and the confirmed-sound floor is treated as sound by the
silence machinery: it RESETS the last-sound timer to the block time and
clears `silenceStartTime`, while the last-silence timer is untouched, no
trigger fires, and the confirmed-sound floor only gates the session timer,
which does not start. -/
theorem between_floors_behaviour (cfg : SilConfig) (s : SilState) (x : Sample)
    (hlo : cfg.floor < x.vol) (hhi : x.vol < cfg.soundFloor) :
    (preview_callback cfg s x).1.lastSound = x.t ∧
    (preview_callback cfg s x).1.lastSilence = s.lastSilence ∧
    (preview_callback cfg s x).1.silenceStart = none ∧
    (preview_callback cfg s x).1.monitoredStarted = s.monitoredStarted ∧
    (preview_callback cfg s x).2 = false := by
  have hnv : ¬ x.vol < cfg.floor := not_lt.mpr (le_of_lt hlo)
  have hns : ¬ x.vol > cfg.soundFloor := not_lt.mpr (le_of_lt hhi)
  simp only [preview_callback]
  rw [timer_branch_no_sound hns]
  simp only [silence_branch, if_neg hnv]
  exact ⟨by trivial, by trivial, by trivial, by trivial, by trivial⟩

theorem between_floors_behaviour_witness :
    ((⟨2, 10, 4⟩ : SilConfig).floor < (3 : ℚ) ∧ (3 : ℚ) < (⟨2, 10, 4⟩ : SilConfig).soundFloor) ∧
    ((preview_callback ⟨2, 10, 4⟩ ⟨0, 0, none, false, 0⟩
        ⟨5, 3, false, true, false⟩).1.lastSound = 5 ∧
      (preview_callback ⟨2, 10, 4⟩ ⟨0, 0, none, false, 0⟩
        ⟨5, 3, false, true, false⟩).1.lastSilence =
          (⟨0, 0, none, false, 0⟩ : SilState).lastSilence ∧
      (preview_callback ⟨2, 10, 4⟩ ⟨0, 0, none, false, 0⟩
        ⟨5, 3, false, true, false⟩).1.silenceStart = none ∧
      (preview_callback ⟨2, 10, 4⟩ ⟨0, 0, none, false, 0⟩
        ⟨5, 3, false, true, false⟩).1.monitoredStarted =
          (⟨0, 0, none, false, 0⟩ : SilState).monitoredStarted ∧
      (preview_callback ⟨2, 10, 4⟩ ⟨0, 0, none, false, 0⟩
        ⟨5, 3, false, true, false⟩).2 = false) :=
  ⟨⟨by norm_num, by norm_num⟩,
    between_floors_behaviour ⟨2, 10, 4⟩ ⟨0, 0, none, false, 0⟩ ⟨5, 3, false, true, false⟩
      (by norm_num) (by norm_num)⟩

/-- C6 counterexample: with noise floor 2 and confirmed-sound floor 4, a
block of norm 3 (strictly between the floors) RESETS the last-sound timer
from 0 to the block time 5, refuting the claim that such blocks reset
neither timer. -/
theorem between_floors_resets_last_sound :
    (preview_callback ⟨2, 10, 4⟩ ⟨0, 0, none, false, 0⟩
      ⟨5, 3, false, true, false⟩).1.lastSound = 5 ∧
    (⟨0, 0, none, false, 0⟩ : SilState).lastSound = 0 ∧
    (2 : ℚ) < 3 ∧ (3 : ℚ) < 4 := by
  refine ⟨?_, rfl, by norm_num, by norm_num⟩
  norm_num [preview_callback, silence_branch, timer_branch]

/-! ### Queue navigation

Embeddings of `skip_videos` (lines 3829-3852), `next_video` (3854-3867),
`on_jump_entry` (3869-3902), `previous_video` (3939-3953), and of the
playback loops that consume the `skip_event` the handlers set:
`handle_single_video` breaks out of its wait (3668-3670) and the enclosing
loop then increments the index — `handle_playlist_sequential` (3722-3726)
inside an expanded playlist, `monitor_loop` (2910) otherwise — ending the
playlist (3706, 3731-3732) or the session (2893, 2918-2919,
`stop_monitoring` 1856) when the incremented index leaves the queue.
Indices are `Int` because the handlers store `target - 1` or `target - 2`
in anticipation of that increment, which passes through transient negative
values. -/

structure NavState where
  monitoring : Bool
  mainQueue : List String
  mainIdx : Int
  plVideos : List String
  plIdx : Int
deriving DecidableEq

inductive NavOp
  | next
  | prev
  | skipBy (count : Int)
  | jump (target : Option Int)
deriving DecidableEq

/-- `skip_videos(count)`: clamp the target index to the bounds, and (when
it differs) store `new_index - 1` because the loop will increment. -/
def skip_videos (s : NavState) (count : Int) : NavState × Bool :=
  if s.monitoring = false then (s, false)
  else if s.plVideos ≠ [] then
    let n := max 0 (min (s.plIdx + count) ((s.plVideos.length : Int) - 1))
    if n ≠ s.plIdx then ({ s with plIdx := n - 1 }, true) else (s, false)
  else if s.mainQueue ≠ [] then
    let n := max 0 (min (s.mainIdx + count) ((s.mainQueue.length : Int) - 1))
    if n ≠ s.mainIdx then ({ s with mainIdx := n - 1 }, true) else (s, false)
  else (s, false)

/-- `next_video`: inside a playlist it increments the playlist index and
sets `skip_event`; on the main queue it only sets `skip_event` (the loop
increments); at the end it logs and does nothing. -/
def next_video (s : NavState) : NavState × Bool :=
  if s.monitoring = false then (s, false)
  else if s.plVideos ≠ [] ∧ s.plIdx < (s.plVideos.length : Int) - 1 then
    ({ s with plIdx := s.plIdx + 1 }, true)
  else if s.mainQueue ≠ [] ∧ s.mainIdx < (s.mainQueue.length : Int) - 1 then
    (s, true)
  else (s, false)

/-- `previous_video`: inside a playlist it decrements the playlist index;
on the main queue it stores `index - 2` (the loop increment nets `-1`). -/
def previous_video (s : NavState) : NavState × Bool :=
  if s.monitoring = false then (s, false)
  else if s.plVideos ≠ [] ∧ s.plIdx > 0 then
    ({ s with plIdx := s.plIdx - 1 }, true)
  else if s.mainQueue ≠ [] ∧ s.mainIdx > 0 then
    ({ s with mainIdx := s.mainIdx - 2 }, true)
  else (s, false)

/-- `on_jump_entry`: a 1-based target inside the bounds stores
`target - 2` (the loop increment nets `target - 1`); out-of-range targets
and non-integer input (`ValueError`, modelled as `none`) only restore the
entry text. -/
def on_jump_entry (s : NavState) (target : Option Int) : NavState × Bool :=
  if s.monitoring = false then (s, false)
  else
    match target with
    | none => (s, false)
    | some t =>
      if s.plVideos ≠ [] then
        if 1 ≤ t ∧ t ≤ (s.plVideos.length : Int) then ({ s with plIdx := t - 2 }, true)
        else (s, false)
      else if s.mainQueue ≠ [] then
        if 1 ≤ t ∧ t ≤ (s.mainQueue.length : Int) then ({ s with mainIdx := t - 2 }, true)
        else (s, false)
      else (s, false)

/-- The playback loops' reaction to a set `skip_event` (see the section
comment): increment the current queue index; on leaving the playlist,
reset the playlist state and advance the main queue; on exhausting the
main queue, the session stops. -/
def loop_react (s : NavState) : NavState :=
  if s.plVideos ≠ [] then
    let s2 := { s with plIdx := s.plIdx + 1 }
    if (s2.plVideos.length : Int) ≤ s2.plIdx then
      let s3 := { s2 with plVideos := [], plIdx := 0, mainIdx := s2.mainIdx + 1 }
      if (s3.mainQueue.length : Int) ≤ s3.mainIdx then { s3 with monitoring := false }
      else s3
    else s2
  else
    let s2 := { s with mainIdx := s.mainIdx + 1 }
    if (s2.mainQueue.length : Int) ≤ s2.mainIdx then { s2 with monitoring := false }
    else s2

/-- One user navigation operation together with the loop reaction it
provokes when it sets `skip_event`. -/
def apply_nav (s : NavState) (op : NavOp) : NavState :=
  let r := match op with
    | .next => next_video s
    | .prev => previous_video s
    | .skipBy c => skip_videos s c
    | .jump t => on_jump_entry s t
  if r.2 then loop_react r.1 else r.1

def run_nav (s : NavState) (ops : List NavOp) : NavState :=
  ops.foldl apply_nav s

/-- The session invariant: while a single video is playing the playlist
queue is empty (`handle_single_video` clears it on entry, line 3620) and
the main-queue index is in bounds whenever the session is active and the
queue non-empty. -/
def NavInv (s : NavState) : Prop :=
  s.plVideos = [] ∧ (s.monitoring = true → s.mainQueue ≠ [] →
    0 ≤ s.mainIdx ∧ s.mainIdx < (s.mainQueue.length : Int))

/-! #### Navigation lemmas -/

theorem NavInv_loop_react_main (s : NavState) (k : Int) (hpl : s.plVideos = [])
    (h1 : 0 ≤ k + 1) (h2 : k + 1 < (s.mainQueue.length : Int)) :
    NavInv (loop_react { s with mainIdx := k }) := by
  have hres : loop_react { s with mainIdx := k } = { s with mainIdx := k + 1 } := by
    simp only [loop_react]
    rw [if_neg (show ¬ ({ s with mainIdx := k } : NavState).plVideos ≠ [] from
      fun hc => hc hpl)]
    rw [if_neg (show ¬ ((s.mainQueue.length : Int) ≤ k + 1) from by omega)]
  rw [hres]
  exact ⟨hpl, fun _ _ => ⟨h1, h2⟩⟩

theorem apply_nav_inv {s : NavState} (op : NavOp) (h : NavInv s) : NavInv (apply_nav s op) := by
  obtain ⟨hpl, hbound⟩ := h
  cases hm : s.monitoring with
  | false =>
    have hres : apply_nav s op = s := by
      cases op with
      | next => simp [apply_nav, next_video, hm]
      | prev => simp [apply_nav, previous_video, hm]
      | skipBy c => simp [apply_nav, skip_videos, hm]
      | jump t => simp [apply_nav, on_jump_entry, hm]
    rw [hres]
    exact ⟨hpl, hbound⟩
  | true =>
    by_cases hq : s.mainQueue = []
    · have hres : apply_nav s op = s := by
        cases op with
        | next => simp [apply_nav, next_video, hm, hpl, hq]
        | prev => simp [apply_nav, previous_video, hm, hpl, hq]
        | skipBy c => simp [apply_nav, skip_videos, hm, hpl, hq]
        | jump t => cases t <;> simp [apply_nav, on_jump_entry, hm, hpl, hq]
      rw [hres]
      exact ⟨hpl, hbound⟩
    · obtain ⟨h0, hlen⟩ := hbound hm hq
      cases op with
      | next =>
        by_cases hc : s.mainIdx < (s.mainQueue.length : Int) - 1
        · have hres : apply_nav s .next = loop_react s := by
            simp [apply_nav, next_video, hm, hpl, hq, hc]
          rw [hres]
          exact NavInv_loop_react_main s s.mainIdx hpl (by omega) (by omega)
        · have hres : apply_nav s .next = s := by
            simp [apply_nav, next_video, hm, hpl, hq, hc]
          rw [hres]
          exact ⟨hpl, hbound⟩
      | prev =>
        by_cases hc : s.mainIdx > 0
        · have hres : apply_nav s .prev =
              loop_react { s with mainIdx := s.mainIdx - 2 } := by
            simp [apply_nav, previous_video, hm, hpl, hq, hc]
          rw [hres]
          exact NavInv_loop_react_main s (s.mainIdx - 2) hpl (by omega) (by omega)
        · have hres : apply_nav s .prev = s := by
            simp [apply_nav, previous_video, hm, hpl, hq, hc]
          rw [hres]
          exact ⟨hpl, hbound⟩
      | skipBy c =>
        by_cases hne : max 0 (min (s.mainIdx + c) ((s.mainQueue.length : Int) - 1)) = s.mainIdx
        · have hres : apply_nav s (.skipBy c) = s := by
            simp [apply_nav, skip_videos, hm, hpl, hq, hne]
          rw [hres]
          exact ⟨hpl, hbound⟩
        · have hres : apply_nav s (.skipBy c) = loop_react { s with mainIdx := (max 0 (min (s.mainIdx + c) ((s.mainQueue.length : Int) - 1))) - 1 } := by
            simp [apply_nav, skip_videos, hm, hpl, hq, hne]
          rw [hres]
          exact NavInv_loop_react_main s _ hpl (by omega) (by omega)
      | jump t =>
        cases t with
        | none =>
          have hres : apply_nav s (.jump none) = s := by
            simp [apply_nav, on_jump_entry, hm]
          rw [hres]
          exact ⟨hpl, hbound⟩
        | some t =>
          by_cases hr : 1 ≤ t ∧ t ≤ (s.mainQueue.length : Int)
          · obtain ⟨ht1, ht2⟩ := hr
            have hres : apply_nav s (.jump (some t)) =
                loop_react { s with mainIdx := t - 2 } := by
              simp [apply_nav, on_jump_entry, hm, hpl, hq, ht1, ht2]
            rw [hres]
            exact NavInv_loop_react_main s (t - 2) hpl (by omega) (by omega)
          · have hres : apply_nav s (.jump (some t)) = s := by
              simp [apply_nav, on_jump_entry, hm, hpl, hq, hr]
            rw [hres]
            exact ⟨hpl, hbound⟩

/-- C1: starting from any session state in which a single video is playing
(`handle_single_video` clears `current_playlist_videos` on entry, line
3620) and the main-queue index is in bounds, any sequence of next /
previous / relative-skip / jump operations — each taken together with the
playback loop's reaction to the `skip_event` it may set — keeps the
playlist queue empty and the current index `i` of the non-empty main queue
within `0 ≤ i < len(queue)` while the session is active. -/
theorem queue_index_bounds (s : NavState) (ops : List NavOp)
    (hpl : s.plVideos = [])
    (hidx : s.monitoring = true → s.mainQueue ≠ [] →
      0 ≤ s.mainIdx ∧ s.mainIdx < (s.mainQueue.length : Int)) :
    (run_nav s ops).plVideos = [] ∧
    ((run_nav s ops).monitoring = true → (run_nav s ops).mainQueue ≠ [] →
      0 ≤ (run_nav s ops).mainIdx ∧
        (run_nav s ops).mainIdx < ((run_nav s ops).mainQueue.length : Int)) := by
  have hinv : NavInv s := ⟨hpl, hidx⟩
  clear hpl hidx
  unfold run_nav
  induction ops generalizing s with
  | nil => exact hinv
  | cons op ops ih => exact ih _ (apply_nav_inv op hinv)

theorem queue_index_bounds_witness :
    ((⟨true, ["a", "b", "c"], 0, [], 0⟩ : NavState).plVideos = []) ∧
    ((run_nav ⟨true, ["a", "b", "c"], 0, [], 0⟩
        [.next, .skipBy 5, .prev, .jump (some 1), .jump none, .skipBy (-7)]).plVideos = [] ∧
      ((run_nav ⟨true, ["a", "b", "c"], 0, [], 0⟩
          [.next, .skipBy 5, .prev, .jump (some 1), .jump none, .skipBy (-7)]).monitoring = true →
        (run_nav ⟨true, ["a", "b", "c"], 0, [], 0⟩
          [.next, .skipBy 5, .prev, .jump (some 1), .jump none, .skipBy (-7)]).mainQueue ≠ [] →
        0 ≤ (run_nav ⟨true, ["a", "b", "c"], 0, [], 0⟩
          [.next, .skipBy 5, .prev, .jump (some 1), .jump none, .skipBy (-7)]).mainIdx ∧
          (run_nav ⟨true, ["a", "b", "c"], 0, [], 0⟩
            [.next, .skipBy 5, .prev, .jump (some 1), .jump none, .skipBy (-7)]).mainIdx <
            ((run_nav ⟨true, ["a", "b", "c"], 0, [], 0⟩
              [.next, .skipBy 5, .prev, .jump (some 1), .jump none,
                .skipBy (-7)]).mainQueue.length : Int))) :=
  ⟨rfl,
    queue_index_bounds ⟨true, ["a", "b", "c"], 0, [], 0⟩
      [.next, .skipBy 5, .prev, .jump (some 1), .jump none, .skipBy (-7)] rfl (by decide)⟩

/-! ### External player (mpv) queries

Embeddings of `query_mpv` (lines 3102-3121), `get_video_timestamp`
(3123-3129), `get_video_duration` (3131-3137), `is_video_ended`
(3153-3164) and `is_video_finished` (3139-3151), restricted to the
external-process (mpv) backend path — `mpv_process` set and running with
an IPC path configured, no browser — which is the backend the claim's
scenario concerns. -/

/-- One parsed response line: whether the JSON object has a `data` key,
its value (null allowed), and the `error` string. -/
structure MpvLine where
  hasData : Bool
  data : Option ℚ
  error : String
deriving DecidableEq

/-- Outcome of one IPC exchange: parsed lines, or one of the caught
exception classes `IOError, OSError, json.JSONDecodeError, socket.timeout`
(the 1-second receive timeout raises `socket.timeout`). -/
inductive MpvResp
  | ok (lines : List MpvLine)
  | err
deriving DecidableEq

/-- Embedding of `query_mpv` (lines 3102-3121): return the `data` of the
first response line that has a data field and error `"success"`; when no
line qualifies, or on a caught exception (including the socket timeout),
log a warning and return None.  The exception is caught inside the
function, so no exception propagates and the function is total; the Bool
records whether a warning was logged. -/
def query_mpv (io : MpvResp) : Option ℚ × Bool :=
  match io with
  | .err => (none, true)
  | .ok lines =>
    match lines.find? (fun l => l.hasData && (l.error == "success")) with
    | some l => (l.data, false)
    | none => (none, true)

/-- Embedding of `get_video_timestamp` (lines 3123-3125, mpv path): a None
query result becomes 0. -/
def get_video_timestamp (posR : MpvResp) : ℚ :=
  match (query_mpv posR).1 with
  | some v => v
  | none => 0

/-- Embedding of `get_video_duration` (lines 3131-3133, mpv path). -/
def get_video_duration (durR : MpvResp) : ℚ :=
  match (query_mpv durR).1 with
  | some v => v
  | none => 0

/-- Embedding of `is_video_ended` (lines 3153-3155, mpv path): true iff
the player process has exited (`poll() is not None`); no IPC query is
involved. -/
def is_video_ended (procExited : Bool) : Bool := procExited

/-- Embedding of `is_video_finished` (lines 3139-3151): the percentage
test runs only when the probed duration is truthy and positive; otherwise,
and when the percentage is below the setting, the explicit ended check
decides. -/
def is_video_finished (posR durR : MpvResp) (procExited : Bool)
    (finishedPct : ℚ) : Bool :=
  let ct := get_video_timestamp posR
  let dur := get_video_duration durR
  if dur ≠ 0 ∧ dur > 0 then
    if ct / dur * 100 ≥ finishedPct then true
    else is_video_ended procExited
  else is_video_ended procExited

/-- C9 (amended): when the position query to the external player times
out, the exception is caught inside `query_mpv` — no exception propagates
— a warning is logged and the query returns None; the position is then
treated as 0, and the ended-check for that tick is recomputed — the
percentage test degrades to false and the check falls back to the
process-liveness test — rather than returning a cached prior value (no
cache exists; see the counterexample). -/
theorem mpv_timeout_fail_soft (durR : MpvResp) (procExited : Bool) (finishedPct : ℚ)
    (hpct : 0 < finishedPct) :
    query_mpv .err = (none, true) ∧
    get_video_timestamp .err = 0 ∧
    is_video_finished .err durR procExited finishedPct = is_video_ended procExited := by
  refine ⟨rfl, rfl, ?_⟩
  simp only [is_video_finished]
  split
  · rename_i hdur
    rw [if_neg]
    show ¬ (get_video_timestamp .err / get_video_duration durR * 100 ≥ finishedPct)
    have hgt : get_video_timestamp .err = 0 := rfl
    rw [hgt, zero_div, zero_mul]
    exact not_le.mpr hpct
  · rfl

theorem mpv_timeout_fail_soft_witness :
    (0 : ℚ) < 90 ∧
    (query_mpv .err = (none, true) ∧
      get_video_timestamp .err = 0 ∧
      is_video_finished .err (.ok [⟨true, some 100, "success"⟩]) false 90 =
        is_video_ended false) :=
  ⟨by norm_num,
    mpv_timeout_fail_soft (.ok [⟨true, some 100, "success"⟩]) false 90 (by norm_num)⟩

/-- C9 counterexample: there is no cached ended value to return.  On the
previous tick (position 95 of duration 100, threshold 90 percent, process
running) the ended-check returned true; on the next tick the position
query times out and the same check returns false — not the prior value —
while the query itself fails soft (None, warning logged). -/
theorem mpv_timeout_not_prior_value :
    is_video_finished (.ok [⟨true, some 95, "success"⟩])
      (.ok [⟨true, some 100, "success"⟩]) false 90 = true ∧
    is_video_finished .err (.ok [⟨true, some 100, "success"⟩]) false 90 = false ∧
    query_mpv .err = (none, true) := by
  refine ⟨?_, ?_, rfl⟩
  · norm_num [is_video_finished, get_video_timestamp, get_video_duration, query_mpv,
      is_video_ended, List.find?]
  · norm_num [is_video_finished, get_video_timestamp, get_video_duration, query_mpv,
      is_video_ended, List.find?]

end SilenceSuzuka
